import Mathlib

/-!
Shallow embedding of the `squee` typed event emitter (`src/index.ts`).

Listeners are identified by natural numbers (reference identity in the
source becomes equality of identifiers).  Event payload values are
modelled as natural numbers; an argument list is a `List Nat`.  The
`registrations` object (a JS object keyed by event name) is modelled as
an association list from event names to `Registration` records, where
`lookupReg`/`setReg` read and write the binding for a key.

Every operation of the class `EventEmitter` is translated: `on`,
`onFirst`, `onAny`, `off` (all three arities), `offAny`, `emit`,
`waitFor`, `waitForFirst`, together with the helpers `removeFromArray`,
`createNewRegistration` and `safelyGetRegistration`.

Invocations of listeners are recorded in traces of `Call` values: a
`Call` holds the listener identifier, the event name passed as a leading
argument (only for `onAny` listeners) and the argument list.

Two dispatch semantics are given:
* `emit` records the calls made by one emission assuming the listeners
  do not mutate the emitter while it dispatches (the usual case);
* `emitE` is the letter-faithful translation of the `for ... of` loops
  of the source, which iterate the live arrays by increasing index, for
  listeners that may unsubscribe (`off`) during dispatch, as the
  temporary listeners installed by `waitFor`/`waitForFirst` do.
-/

namespace Squee

/-- Event names are strings, as in the source. -/
abbrev EventName := String

/-- Listeners and first args registered to an event (`IRegistration`). -/
structure Registration where
  firstArgs : Option (List Nat)
  firstOnlyListeners : List Nat
  listeners : List Nat
deriving DecidableEq, Repr

/-- Translation of `createNewRegistration`. -/
def createNewRegistration : Registration :=
  { firstArgs := none, firstOnlyListeners := [], listeners := [] }

/-- The state of one `EventEmitter` instance: the `anyRegistrations`
array and the `registrations` object (as an association list). -/
structure EventEmitter where
  anyRegistrations : List Nat
  registrations : List (EventName × Registration)
deriving DecidableEq, Repr

/-- A freshly constructed emitter. -/
def EventEmitter.new : EventEmitter :=
  { anyRegistrations := [], registrations := [] }

/-- Translation of `removeFromArray`: removes every occurrence of an
item from an array, returning the new array and whether any occurrence
was removed. -/
def removeFromArray : List Nat → Nat → List Nat × Bool
  | [], _ => ([], false)
  | a :: rest, item =>
    let r := removeFromArray rest item
    if a = item then (r.1, true) else (a :: r.1, r.2)

/-- Reading the binding of an event name in the registrations object. -/
def lookupReg : List (EventName × Registration) → EventName → Option Registration
  | [], _ => none
  | p :: rest, e => if p.1 = e then some p.2 else lookupReg rest e

/-- Writing the binding of an event name in the registrations object
(replacing an existing binding, or creating one). -/
def setReg : List (EventName × Registration) → EventName → Registration → List (EventName × Registration)
  | [], e, r => [(e, r)]
  | p :: rest, e, r => if p.1 = e then (e, r) :: rest else p :: setReg rest e r

/-- The registration an event name currently denotes: the stored one,
or a blank one when none is stored yet. -/
def getReg (s : EventEmitter) (e : EventName) : Registration :=
  (lookupReg s.registrations e).getD createNewRegistration

/-- Replacing the registration of one event name in an emitter. -/
def setRegS (s : EventEmitter) (e : EventName) (r : Registration) : EventEmitter :=
  { s with registrations := setReg s.registrations e r }

/-- Translation of `safelyGetRegistration`: returns the registration
for the event name, creating (and storing) a blank one if absent. -/
def EventEmitter.safelyGetRegistration (s : EventEmitter) (e : EventName) : Registration × EventEmitter :=
  match lookupReg s.registrations e with
  | some r => (r, s)
  | none => (createNewRegistration, setRegS s e createNewRegistration)

/-- One recorded listener invocation: the listener, the event name it
receives as a leading argument (`some` only for `onAny` listeners), and
the argument list. -/
structure Call where
  lid : Nat
  namedArg : Option EventName
  args : List Nat
deriving DecidableEq, Repr

/-- Translation of `on`: appends the listener to the `listeners` array
of the event name's registration. -/
def EventEmitter.on (s : EventEmitter) (e : EventName) (lid : Nat) : EventEmitter :=
  let p := s.safelyGetRegistration e
  setRegS p.2 e { p.1 with listeners := p.1.listeners ++ [lid] }

/-- Translation of `onFirst`: if `firstArgs` is already set the
listener is invoked at once with them (recorded in the returned trace);
the listener is appended to `firstOnlyListeners` either way. -/
def EventEmitter.onFirst (s : EventEmitter) (e : EventName) (lid : Nat) : EventEmitter × List Call :=
  let p := s.safelyGetRegistration e
  let calls : List Call :=
    match p.1.firstArgs with
    | some fa => [Call.mk lid none fa]
    | none => []
  (setRegS p.2 e { p.1 with firstOnlyListeners := p.1.firstOnlyListeners ++ [lid] }, calls)

/-- Translation of `onAny`: appends the listener to `anyRegistrations`. -/
def EventEmitter.onAny (s : EventEmitter) (lid : Nat) : EventEmitter :=
  { s with anyRegistrations := s.anyRegistrations ++ [lid] }

/-- Translation of `off` in its three forms. Returns the new state and
the error message of the thrown `Error`, if any; the state mutations
performed before a throw persist, as they do in the source. -/
def EventEmitter.off (s : EventEmitter) (eventName : Option EventName) (listener : Option Nat) : EventEmitter × Option String :=
  match eventName with
  | none => ({ s with registrations := [] }, none)
  | some e =>
    match listener with
    | none => (setRegS s e createNewRegistration, none)
    | some lid =>
      let p := s.safelyGetRegistration e
      let remListeners := removeFromArray p.1.listeners lid
      let remFirstOnly := removeFromArray p.1.firstOnlyListeners lid
      let s2 := setRegS p.2 e
        { firstArgs := p.1.firstArgs
          firstOnlyListeners := remFirstOnly.1
          listeners := remListeners.1 }
      if remListeners.2 || remFirstOnly.2 then (s2, none)
      else (s2, some ("Tried to remove a non-existent listener for event name " ++ e ++ "."))

/-- Translation of `offAny`: removes the listener from
`anyRegistrations` and from both lists of every registration. -/
def EventEmitter.offAny (s : EventEmitter) (lid : Nat) : EventEmitter :=
  { anyRegistrations := (removeFromArray s.anyRegistrations lid).1
    registrations := s.registrations.map fun p =>
      (p.1,
        { firstArgs := p.2.firstArgs
          firstOnlyListeners := (removeFromArray p.2.firstOnlyListeners lid).1
          listeners := (removeFromArray p.2.listeners lid).1 }) }

/-- Translation of `emit` for listeners that do not mutate the emitter
during dispatch: if `firstArgs` is not yet set, the first-only
listeners are invoked in order, `firstArgs` is captured and the
first-only list cleared; then the general listeners are invoked in
order, then the `anyRegistrations` listeners with the event name
prepended. The returned trace records the invocations. -/
def EventEmitter.emit (s : EventEmitter) (e : EventName) (args : List Nat) : EventEmitter × List Call :=
  let p := s.safelyGetRegistration e
  match p.1.firstArgs with
  | none =>
    let firstCalls := p.1.firstOnlyListeners.map fun lid => Call.mk lid none args
    let s2 := setRegS p.2 e
      { firstArgs := some args, firstOnlyListeners := [], listeners := p.1.listeners }
    (s2,
      firstCalls
        ++ p.1.listeners.map (fun lid => Call.mk lid none args)
        ++ p.2.anyRegistrations.map fun lid => Call.mk lid (some e) args)
  | some _ =>
    (p.2,
      p.1.listeners.map (fun lid => Call.mk lid none args)
        ++ p.2.anyRegistrations.map fun lid => Call.mk lid (some e) args)

/-- Outcome of a promise as observable at the end of the call that
created it. -/
inductive PromiseOutcome where
  | pending
  | resolved (value : Option Nat)
  | rejected
deriving DecidableEq, Repr

/-- Translation of `waitFor`: the executor registers, via `on`, a
temporary listener that resolves the promise with its first argument
and then removes itself with `off`; nothing can resolve or reject the
promise before the executor returns, so the outcome is `pending`. -/
def EventEmitter.waitFor (s : EventEmitter) (e : EventName) (lid : Nat) : PromiseOutcome × EventEmitter :=
  (PromiseOutcome.pending, s.on e lid)

/-- Translation of `waitForFirst`: the executor registers the same kind
of temporary listener via `onFirst`. When `firstArgs` is already set,
`onFirst` invokes the listener before pushing it: the listener resolves
the promise with the head of `firstArgs` and then calls
`off(eventName, listener)`; if that `off` throws (the listener is in
neither list, not yet having been pushed), the exception unwinds out of
`onFirst` and the executor, skipping the push, and is discarded by the
promise constructor because the promise is already resolved. -/
def EventEmitter.waitForFirst (s : EventEmitter) (e : EventName) (lid : Nat) : PromiseOutcome × EventEmitter :=
  let p := s.safelyGetRegistration e
  match p.1.firstArgs with
  | some fa =>
    let q := p.2.off (some e) (some lid)
    match q.2 with
    | some _ => (PromiseOutcome.resolved fa.head?, q.1)
    | none =>
      let p2 := q.1.safelyGetRegistration e
      (PromiseOutcome.resolved fa.head?,
        setRegS p2.2 e { p2.1 with firstOnlyListeners := p2.1.firstOnlyListeners ++ [lid] })
  | none =>
    (PromiseOutcome.pending,
      setRegS p.2 e { p.1 with firstOnlyListeners := p.1.firstOnlyListeners ++ [lid] })

/-- What a listener may do, besides returning, when it is invoked
during a dispatch: nothing, or behave like the temporary listener
installed by `waitFor`/`waitForFirst` (resolve its promise, then call
`off(e, itself)`). -/
inductive Action where
  | nothing
  | resolveOff (e : EventName)
deriving DecidableEq, Repr

/-- Effect of invoking a listener whose behaviour is given by `env`:
the new emitter state and the message of an exception thrown by the
listener body, if any. -/
def applyAction (env : Nat → Action) (s : EventEmitter) (lid : Nat) : EventEmitter × Option String :=
  match env lid with
  | Action.nothing => (s, none)
  | Action.resolveOff e => s.off (some e) (some lid)

/-- The `for (const listener of registration.listeners)` loop of
`emit`, translated with JavaScript array-iterator semantics: an index
walks forward over the live array, re-read at every step, with no
adjustment when a listener's action removes elements. A thrown
exception aborts the loop. The fuel only bounds the number of
iterations; with the actions above the list never grows, so any fuel
at least the list length is enough. -/
def listenersLoop (env : Nat → Action) (e : EventName) (args : List Nat) : Nat → Nat → EventEmitter → EventEmitter × List Call × Option String
  | 0, _, s => (s, [], none)
  | fuel + 1, i, s =>
    let l := (getReg s e).listeners
    if h : i < l.length then
      let lid := l.get ⟨i, h⟩
      let q := applyAction env s lid
      match q.2 with
      | some m => (q.1, [Call.mk lid none args], some m)
      | none =>
        let t := listenersLoop env e args fuel (i + 1) q.1
        (t.1, Call.mk lid none args :: t.2.1, t.2.2)
    else (s, [], none)

/-- The `for (const firstOnlyListener of registration.firstOnlyListeners)`
loop of `emit`, with the same live-array iterator semantics. -/
def firstOnlyLoop (env : Nat → Action) (e : EventName) (args : List Nat) : Nat → Nat → EventEmitter → EventEmitter × List Call × Option String
  | 0, _, s => (s, [], none)
  | fuel + 1, i, s =>
    let l := (getReg s e).firstOnlyListeners
    if h : i < l.length then
      let lid := l.get ⟨i, h⟩
      let q := applyAction env s lid
      match q.2 with
      | some m => (q.1, [Call.mk lid none args], some m)
      | none =>
        let t := firstOnlyLoop env e args fuel (i + 1) q.1
        (t.1, Call.mk lid none args :: t.2.1, t.2.2)
    else (s, [], none)

/-- The `for (const listener of this.anyRegistrations)` loop of `emit`,
with the same live-array iterator semantics; these listeners receive
the event name as a leading argument. -/
def anyLoop (env : Nat → Action) (e : EventName) (args : List Nat) : Nat → Nat → EventEmitter → EventEmitter × List Call × Option String
  | 0, _, s => (s, [], none)
  | fuel + 1, i, s =>
    let l := s.anyRegistrations
    if h : i < l.length then
      let lid := l.get ⟨i, h⟩
      let q := applyAction env s lid
      match q.2 with
      | some m => (q.1, [Call.mk lid (some e) args], some m)
      | none =>
        let t := anyLoop env e args fuel (i + 1) q.1
        (t.1, Call.mk lid (some e) args :: t.2.1, t.2.2)
    else (s, [], none)

/-- Letter-faithful translation of `emit` for listeners that may call
`off` during the dispatch: the three loops walk the live arrays, a
thrown exception aborts the emission (in particular, a throw during the
first-only drain happens before `firstArgs` is captured). -/
def EventEmitter.emitE (env : Nat → Action) (s : EventEmitter) (e : EventName) (args : List Nat) (fuel : Nat) : EventEmitter × List Call × Option String :=
  let p := s.safelyGetRegistration e
  match p.1.firstArgs with
  | none =>
    let d := firstOnlyLoop env e args fuel 0 p.2
    match d.2.2 with
    | some m => (d.1, d.2.1, some m)
    | none =>
      let p2 := d.1.safelyGetRegistration e
      let s3 := setRegS p2.2 e { p2.1 with firstArgs := some args, firstOnlyListeners := [] }
      let t := listenersLoop env e args fuel 0 s3
      match t.2.2 with
      | some m => (t.1, d.2.1 ++ t.2.1, some m)
      | none =>
        let u := anyLoop env e args fuel 0 t.1
        (u.1, d.2.1 ++ t.2.1 ++ u.2.1, u.2.2)
  | some _ =>
    let t := listenersLoop env e args fuel 0 p.2
    match t.2.2 with
    | some m => (t.1, t.2.1, some m)
    | none =>
      let u := anyLoop env e args fuel 0 t.1
      (u.1, t.2.1 ++ u.2.1, u.2.2)

/-- The public operations of the emitter, reified so that sequences of
calls can be quantified over. -/
inductive Op where
  | onOp (e : EventName) (lid : Nat)
  | onFirstOp (e : EventName) (lid : Nat)
  | onAnyOp (lid : Nat)
  | offOp (e : Option EventName) (lid : Option Nat)
  | offAnyOp (lid : Nat)
  | emitOp (e : EventName) (args : List Nat)
deriving DecidableEq, Repr

/-- Running one public operation: the new state and the listener
invocations it performed. An error thrown by `off` leaves the state it
produced. -/
def step (s : EventEmitter) : Op → EventEmitter × List Call
  | Op.onOp e lid => (s.on e lid, [])
  | Op.onFirstOp e lid => s.onFirst e lid
  | Op.onAnyOp lid => (s.onAny lid, [])
  | Op.offOp e lid => ((s.off e lid).1, [])
  | Op.offAnyOp lid => (s.offAny lid, [])
  | Op.emitOp e args => s.emit e args

/-- Running a sequence of public operations, concatenating the traces. -/
def run (s : EventEmitter) : List Op → EventEmitter × List Call
  | [] => (s, [])
  | op :: ops =>
    let p := step s op
    let q := run p.1 ops
    (q.1, p.2 ++ q.2)

/-- Whether an operation registers the given listener (the only ways a
listener can enter any of the emitter's lists). -/
def registersListener (L : Nat) : Op → Bool
  | Op.onOp _ lid => lid == L
  | Op.onFirstOp _ lid => lid == L
  | Op.onAnyOp lid => lid == L
  | _ => false

/-- A listener that is in no list at all, except possibly in
`firstOnlyListeners` of registrations whose `firstArgs` is already
captured: such a listener is never invoked by any operation that does
not register it anew. -/
def NeverFires (s : EventEmitter) (L : Nat) : Prop :=
  L ∉ s.anyRegistrations ∧
    ∀ p ∈ s.registrations, L ∉ p.2.listeners ∧ (L ∈ p.2.firstOnlyListeners → p.2.firstArgs ≠ none)

instance (s : EventEmitter) (L : Nat) : Decidable (NeverFires s L) := by
  unfold NeverFires
  infer_instance

/-! Basic lemmas about the helpers. -/

theorem removeFromArray_fst (l : List Nat) (x : Nat) :
    (removeFromArray l x).1 = l.filter fun a => a != x := by
  induction l with
  | nil => rfl
  | cons a rest ih =>
    by_cases h : a = x
    · simp [removeFromArray, h, ih]
    · have hb : (a != x) = true := by simp [h]
      simp [removeFromArray, h, ih, List.filter_cons, hb]

theorem removeFromArray_snd (l : List Nat) (x : Nat) :
    (removeFromArray l x).2 = true ↔ x ∈ l := by
  induction l with
  | nil => simp [removeFromArray]
  | cons a rest ih =>
    by_cases h : a = x <;> simp [removeFromArray, h, ih]
    exact fun hx => (h hx.symm).elim

theorem mem_removeFromArray {a : Nat} {l : List Nat} {x : Nat} :
    a ∈ (removeFromArray l x).1 ↔ a ∈ l ∧ a ≠ x := by
  simp [removeFromArray_fst]

theorem lookupReg_setReg_self (m : List (EventName × Registration)) (e : EventName) (r : Registration) :
    lookupReg (setReg m e r) e = some r := by
  induction m with
  | nil => simp [setReg, lookupReg]
  | cons p rest ih =>
    by_cases h : p.1 = e <;> simp [setReg, lookupReg, h, ih]

theorem lookupReg_setReg_ne (m : List (EventName × Registration)) (e e' : EventName) (r : Registration)
    (h : e' ≠ e) : lookupReg (setReg m e r) e' = lookupReg m e' := by
  have h2 : e ≠ e' := Ne.symm h
  induction m with
  | nil => simp [setReg, lookupReg, h2]
  | cons p rest ih =>
    by_cases hp : p.1 = e
    · simp [setReg, lookupReg, hp, h2]
    · simp [setReg, lookupReg, hp, ih]

theorem setReg_of_lookup_eq {m : List (EventName × Registration)} {e : EventName} {r : Registration}
    (h : lookupReg m e = some r) : setReg m e r = m := by
  induction m with
  | nil => simp [lookupReg] at h
  | cons p rest ih =>
    by_cases hp : p.1 = e
    · have h2 : p.2 = r := by simpa [lookupReg, hp] using h
      obtain ⟨p1, p2⟩ := p
      simp only at hp h2
      subst hp
      subst h2
      simp [setReg]
    · have h2 : lookupReg rest e = some r := by simpa [lookupReg, hp] using h
      simp [setReg, hp, ih h2]

theorem setReg_of_lookup_none {m : List (EventName × Registration)} {e : EventName} (r : Registration)
    (h : lookupReg m e = none) : setReg m e r = m ++ [(e, r)] := by
  induction m with
  | nil => simp [setReg]
  | cons p rest ih =>
    by_cases hp : p.1 = e
    · simp [lookupReg, hp] at h
    · simp [lookupReg, hp] at h
      simp [setReg, hp, ih h]

theorem mem_setReg {m : List (EventName × Registration)} {e : EventName} {r : Registration}
    {p : EventName × Registration} (hp : p ∈ setReg m e r) : p = (e, r) ∨ p ∈ m := by
  induction m with
  | nil => simp [setReg] at hp; simp [hp]
  | cons q rest ih =>
    by_cases hq : q.1 = e
    · simp [setReg, hq] at hp
      rcases hp with hp | hp
      · exact Or.inl hp
      · exact Or.inr (List.mem_cons_of_mem _ hp)
    · simp [setReg, hq] at hp
      rcases hp with hp | hp
      · exact Or.inr (by simp [hp])
      · rcases ih hp with h | h
        · exact Or.inl h
        · exact Or.inr (List.mem_cons_of_mem _ h)

theorem mem_setReg_nodup {m : List (EventName × Registration)} {e : EventName} {r : Registration}
    {p : EventName × Registration} (hnd : (m.map Prod.fst).Nodup) (hp : p ∈ setReg m e r) :
    p = (e, r) ∨ (p ∈ m ∧ p.1 ≠ e) := by
  induction m with
  | nil =>
    simp [setReg] at hp
    exact Or.inl hp
  | cons q rest ih =>
    rw [List.map_cons] at hnd
    rcases List.nodup_cons.mp hnd with ⟨hq1, hnd2⟩
    by_cases hq : q.1 = e
    · simp only [setReg, hq, if_pos rfl] at hp
      rcases List.mem_cons.mp hp with h1 | h1
      · exact Or.inl h1
      · refine Or.inr ⟨List.mem_cons_of_mem _ h1, fun hpe => ?_⟩
        have hm : p.1 ∈ rest.map Prod.fst := List.mem_map_of_mem _ h1
        rw [hpe, ← hq] at hm
        exact hq1 hm
    · simp only [setReg, if_neg hq] at hp
      rcases List.mem_cons.mp hp with h1 | h1
      · subst h1
        exact Or.inr ⟨List.mem_cons_self _ _, hq⟩
      · rcases ih hnd2 h1 with h2 | ⟨h2, h3⟩
        · exact Or.inl h2
        · exact Or.inr ⟨List.mem_cons_of_mem _ h2, h3⟩

theorem mem_of_lookupReg {m : List (EventName × Registration)} {e : EventName} {r : Registration}
    (h : lookupReg m e = some r) : (e, r) ∈ m := by
  induction m with
  | nil => simp [lookupReg] at h
  | cons p rest ih =>
    by_cases hp : p.1 = e
    · have h2 : p.2 = r := by simpa [lookupReg, hp] using h
      have h3 : (e, r) = p := by
        obtain ⟨p1, p2⟩ := p
        simp only at hp h2
        simp [hp, h2]
      rw [h3]
      exact List.mem_cons_self _ _
    · have h2 : lookupReg rest e = some r := by simpa [lookupReg, hp] using h
      exact List.mem_cons_of_mem _ (ih h2)

theorem getReg_setRegS_self (s : EventEmitter) (e : EventName) (r : Registration) :
    getReg (setRegS s e r) e = r := by
  simp [getReg, setRegS, lookupReg_setReg_self]

theorem getReg_setRegS_ne (s : EventEmitter) (e e' : EventName) (r : Registration) (h : e' ≠ e) :
    getReg (setRegS s e r) e' = getReg s e' := by
  simp [getReg, setRegS, lookupReg_setReg_ne _ _ _ _ h]

theorem setRegS_anyRegistrations (s : EventEmitter) (e : EventName) (r : Registration) :
    (setRegS s e r).anyRegistrations = s.anyRegistrations := rfl

theorem safelyGetRegistration_fst (s : EventEmitter) (e : EventName) :
    (s.safelyGetRegistration e).1 = getReg s e := by
  unfold EventEmitter.safelyGetRegistration getReg
  cases h : lookupReg s.registrations e <;> simp [h]

theorem safelyGetRegistration_anyRegistrations (s : EventEmitter) (e : EventName) :
    (s.safelyGetRegistration e).2.anyRegistrations = s.anyRegistrations := by
  unfold EventEmitter.safelyGetRegistration
  cases h : lookupReg s.registrations e <;> simp [h, setRegS]

theorem getReg_safelyGetRegistration (s : EventEmitter) (e e' : EventName) :
    getReg (s.safelyGetRegistration e).2 e' = getReg s e' := by
  unfold EventEmitter.safelyGetRegistration
  cases h : lookupReg s.registrations e with
  | some r => simp
  | none =>
    by_cases he : e' = e
    · subst he
      simp [getReg, setRegS, lookupReg_setReg_self, h]
    · simp [getReg_setRegS_ne _ _ _ _ he]

theorem mem_safelyGetRegistration {s : EventEmitter} {e : EventName}
    {p : EventName × Registration} (hp : p ∈ (s.safelyGetRegistration e).2.registrations) :
    p = (e, getReg s e) ∨ p ∈ s.registrations := by
  unfold EventEmitter.safelyGetRegistration at hp
  cases h : lookupReg s.registrations e with
  | some r => simp [h] at hp; exact Or.inr hp
  | none =>
    simp [h, setRegS] at hp
    rcases mem_setReg hp with hh | hh
    · exact Or.inl (by simp [hh, getReg, h])
    · exact Or.inr hh

/-! Characterizations of the public operations. -/

theorem on_getReg_self (s : EventEmitter) (e : EventName) (L : Nat) :
    getReg (s.on e L) e = { getReg s e with listeners := (getReg s e).listeners ++ [L] } := by
  simp [EventEmitter.on, getReg_setRegS_self, safelyGetRegistration_fst]

theorem on_getReg_ne (s : EventEmitter) (e e' : EventName) (L : Nat) (h : e' ≠ e) :
    getReg (s.on e L) e' = getReg s e' := by
  simp [EventEmitter.on, getReg_setRegS_ne _ _ _ _ h, getReg_safelyGetRegistration]

theorem on_anyRegistrations (s : EventEmitter) (e : EventName) (L : Nat) :
    (s.on e L).anyRegistrations = s.anyRegistrations := by
  simp [EventEmitter.on, setRegS_anyRegistrations, safelyGetRegistration_anyRegistrations]

theorem onFirst_trace (s : EventEmitter) (e : EventName) (L : Nat) :
    (s.onFirst e L).2 =
      match (getReg s e).firstArgs with
      | some fa => [Call.mk L none fa]
      | none => [] := by
  simp [EventEmitter.onFirst, safelyGetRegistration_fst]

theorem onFirst_getReg_self (s : EventEmitter) (e : EventName) (L : Nat) :
    getReg (s.onFirst e L).1 e =
      { getReg s e with firstOnlyListeners := (getReg s e).firstOnlyListeners ++ [L] } := by
  simp [EventEmitter.onFirst, getReg_setRegS_self, safelyGetRegistration_fst]

theorem onFirst_getReg_ne (s : EventEmitter) (e e' : EventName) (L : Nat) (h : e' ≠ e) :
    getReg (s.onFirst e L).1 e' = getReg s e' := by
  simp [EventEmitter.onFirst, getReg_setRegS_ne _ _ _ _ h, getReg_safelyGetRegistration]

theorem onFirst_anyRegistrations (s : EventEmitter) (e : EventName) (L : Nat) :
    (s.onFirst e L).1.anyRegistrations = s.anyRegistrations := by
  simp [EventEmitter.onFirst, setRegS_anyRegistrations, safelyGetRegistration_anyRegistrations]

theorem emit_trace (s : EventEmitter) (e : EventName) (args : List Nat) :
    (s.emit e args).2 =
      (match (getReg s e).firstArgs with
        | none => (getReg s e).firstOnlyListeners.map fun lid => Call.mk lid none args
        | some _ => [])
      ++ (getReg s e).listeners.map (fun lid => Call.mk lid none args)
      ++ s.anyRegistrations.map fun lid => Call.mk lid (some e) args := by
  have hfst := safelyGetRegistration_fst s e
  have hany := safelyGetRegistration_anyRegistrations s e
  cases h : (getReg s e).firstArgs with
  | none => simp [EventEmitter.emit, hfst, hany, h]
  | some fa => simp [EventEmitter.emit, hfst, hany, h]

theorem emit_getReg_self (s : EventEmitter) (e : EventName) (args : List Nat) :
    getReg (s.emit e args).1 e =
      match (getReg s e).firstArgs with
      | none =>
        { firstArgs := some args, firstOnlyListeners := [], listeners := (getReg s e).listeners }
      | some _ => getReg s e := by
  have hfst := safelyGetRegistration_fst s e
  cases h : (getReg s e).firstArgs with
  | none => simp [EventEmitter.emit, hfst, h, getReg_setRegS_self]
  | some fa => simp [EventEmitter.emit, hfst, h, getReg_safelyGetRegistration]

theorem emit_getReg_ne (s : EventEmitter) (e e' : EventName) (args : List Nat) (h : e' ≠ e) :
    getReg (s.emit e args).1 e' = getReg s e' := by
  have hfst := safelyGetRegistration_fst s e
  cases hf : (getReg s e).firstArgs with
  | none =>
    simp [EventEmitter.emit, hfst, hf, getReg_setRegS_ne _ _ _ _ h, getReg_safelyGetRegistration]
  | some fa => simp [EventEmitter.emit, hfst, hf, getReg_safelyGetRegistration]

theorem emit_anyRegistrations (s : EventEmitter) (e : EventName) (args : List Nat) :
    (s.emit e args).1.anyRegistrations = s.anyRegistrations := by
  have hfst := safelyGetRegistration_fst s e
  have hany := safelyGetRegistration_anyRegistrations s e
  cases h : (getReg s e).firstArgs with
  | none => simp [EventEmitter.emit, hfst, hany, h, setRegS_anyRegistrations]
  | some fa => simp [EventEmitter.emit, hfst, hany, h]

theorem off_all_eq (s : EventEmitter) :
    s.off none none = ({ s with registrations := [] }, none) := rfl

theorem off_event_eq (s : EventEmitter) (e : EventName) :
    s.off (some e) none = (setRegS s e createNewRegistration, none) := rfl

theorem off_listener_getReg_self (s : EventEmitter) (e : EventName) (L : Nat) :
    getReg (s.off (some e) (some L)).1 e =
      { firstArgs := (getReg s e).firstArgs
        firstOnlyListeners := (getReg s e).firstOnlyListeners.filter fun a => a != L
        listeners := (getReg s e).listeners.filter fun a => a != L } := by
  have hfst := safelyGetRegistration_fst s e
  by_cases h : (removeFromArray (getReg s e).listeners L).2 || (removeFromArray (getReg s e).firstOnlyListeners L).2 <;>
    simp [EventEmitter.off, hfst, h, getReg_setRegS_self, removeFromArray_fst]

theorem off_listener_getReg_ne (s : EventEmitter) (e e' : EventName) (L : Nat) (h : e' ≠ e) :
    getReg (s.off (some e) (some L)).1 e' = getReg s e' := by
  have hfst := safelyGetRegistration_fst s e
  by_cases hb : (removeFromArray (getReg s e).listeners L).2 || (removeFromArray (getReg s e).firstOnlyListeners L).2 <;>
    simp [EventEmitter.off, hfst, hb, getReg_setRegS_ne _ _ _ _ h, getReg_safelyGetRegistration]

theorem off_listener_anyRegistrations (s : EventEmitter) (e : EventName) (L : Nat) :
    (s.off (some e) (some L)).1.anyRegistrations = s.anyRegistrations := by
  have hfst := safelyGetRegistration_fst s e
  have hany := safelyGetRegistration_anyRegistrations s e
  by_cases hb : (removeFromArray (getReg s e).listeners L).2 || (removeFromArray (getReg s e).firstOnlyListeners L).2 <;>
    simp [EventEmitter.off, hfst, hb, hany, setRegS_anyRegistrations]

theorem off_listener_error_iff (s : EventEmitter) (e : EventName) (L : Nat) :
    (s.off (some e) (some L)).2 ≠ none ↔
      L ∉ (getReg s e).listeners ∧ L ∉ (getReg s e).firstOnlyListeners := by
  have hfst := safelyGetRegistration_fst s e
  have h1 := removeFromArray_snd (getReg s e).listeners L
  have h2 := removeFromArray_snd (getReg s e).firstOnlyListeners L
  by_cases hb : (removeFromArray (getReg s e).listeners L).2 || (removeFromArray (getReg s e).firstOnlyListeners L).2
  · simp [EventEmitter.off, hfst, hb]
    intro hnot
    rcases Bool.or_eq_true_iff.mp hb with h | h
    · exact (hnot (h1.mp h)).elim
    · exact h2.mp h
  · simp [EventEmitter.off, hfst, hb]
    simp only [Bool.or_eq_true_iff, not_or, Bool.not_eq_true] at hb
    constructor
    · intro hmem
      have hc := h1.mpr hmem
      simp [hb.1] at hc
    · intro hmem
      have hc := h2.mpr hmem
      simp [hb.2] at hc

theorem lid_mem_map_calls {c : Call} {l : List Nat} {n : Option EventName} {args : List Nat}
    (hc : c ∈ l.map fun lid => Call.mk lid n args) : c.lid ∈ l := by
  rcases List.mem_map.mp hc with ⟨a, ha, rfl⟩
  exact ha

theorem off_listener_fst (s : EventEmitter) (e : EventName) (L : Nat) :
    (s.off (some e) (some L)).1 =
      setRegS (s.safelyGetRegistration e).2 e
        { firstArgs := (getReg s e).firstArgs
          firstOnlyListeners := (removeFromArray (getReg s e).firstOnlyListeners L).1
          listeners := (removeFromArray (getReg s e).listeners L).1 } := by
  have hfst := safelyGetRegistration_fst s e
  by_cases hb : (removeFromArray (getReg s e).listeners L).2 || (removeFromArray (getReg s e).firstOnlyListeners L).2 <;>
    simp [EventEmitter.off, hfst, hb]

theorem lookupReg_safelyGetRegistration_self (s : EventEmitter) (e : EventName) :
    lookupReg (s.safelyGetRegistration e).2.registrations e = some (getReg s e) := by
  unfold EventEmitter.safelyGetRegistration
  cases h : lookupReg s.registrations e with
  | some r => simp [getReg, h]
  | none => simp [setRegS, lookupReg_setReg_self, getReg, h]

theorem setRegS_of_lookup_eq {s : EventEmitter} {e : EventName} {r : Registration}
    (h : lookupReg s.registrations e = some r) : setRegS s e r = s := by
  unfold setRegS
  rw [setReg_of_lookup_eq h]

theorem safelyGetRegistration_state_of_some {s : EventEmitter} {e : EventName} {r : Registration}
    (h : lookupReg s.registrations e = some r) : (s.safelyGetRegistration e).2 = s := by
  unfold EventEmitter.safelyGetRegistration
  simp [h]

theorem safelyGetRegistration_state_of_none {s : EventEmitter} {e : EventName}
    (h : lookupReg s.registrations e = none) :
    (s.safelyGetRegistration e).2 =
      { anyRegistrations := s.anyRegistrations
        registrations := s.registrations ++ [(e, createNewRegistration)] } := by
  unfold EventEmitter.safelyGetRegistration
  simp [h, setRegS, setReg_of_lookup_none _ h]

/-! Claim theorems. -/

/-- C1: a listener added via `on(e, L)` is appended to the end of the
general listener list for `e`, and `emit(e, args)` invokes exactly the
general listeners in list order, each exactly once per occurrence and
each with exactly `args` (after the first-only drain and before the
any-listeners): the emission's trace is the listener lists mapped to
calls carrying `args`. -/
theorem on_appends_and_emit_dispatches_in_order (s : EventEmitter) (e : EventName) (L : Nat) (args : List Nat) :
    (getReg (s.on e L) e).listeners = (getReg s e).listeners ++ [L]
    ∧ (s.emit e args).2 =
      (match (getReg s e).firstArgs with
        | none => (getReg s e).firstOnlyListeners.map fun lid => Call.mk lid none args
        | some _ => [])
      ++ (getReg s e).listeners.map (fun lid => Call.mk lid none args)
      ++ s.anyRegistrations.map fun lid => Call.mk lid (some e) args :=
  ⟨by simp [on_getReg_self], emit_trace s e args⟩

/-- C6: `off(e)` with no listener resets the registration of `e` to the
freshly-created state (no listeners, no first-only listeners, no
captured first args), so a listener attached via `onFirst` between the
reset and the next emission is not invoked at attach time and fires
with the new emission's args, that emission being treated as the first. -/
theorem off_event_resets_to_fresh (s : EventEmitter) (e : EventName) (L : Nat) (args2 : List Nat) :
    getReg (s.off (some e) none).1 e = createNewRegistration
    ∧ ((s.off (some e) none).1.onFirst e L).2 = []
    ∧ (((s.off (some e) none).1.onFirst e L).1.emit e args2).2 =
        Call.mk L none args2
          :: ((s.off (some e) none).1.onFirst e L).1.anyRegistrations.map
              fun lid => Call.mk lid (some e) args2 := by
  have h1 : getReg (s.off (some e) none).1 e = createNewRegistration := by
    rw [off_event_eq]
    exact getReg_setRegS_self s e createNewRegistration
  have h2 : getReg ((s.off (some e) none).1.onFirst e L).1 e =
      { firstArgs := none, firstOnlyListeners := [L], listeners := [] } := by
    rw [onFirst_getReg_self, h1]
    rfl
  refine ⟨h1, ?_, ?_⟩
  · rw [onFirst_trace, h1]
    rfl
  · rw [emit_trace, h2]
    rfl

/-- C7: `off(e, L)` throws its error, synchronously to the caller,
exactly when `L` occurs in neither the general listener list nor the
first-only listener list of the registration of `e` at call time. -/
theorem off_listener_throws_iff_not_found (s : EventEmitter) (e : EventName) (L : Nat) :
    (s.off (some e) (some L)).2 ≠ none ↔
      L ∉ (getReg s e).listeners ∧ L ∉ (getReg s e).firstOnlyListeners :=
  off_listener_error_iff s e L

/-- C8: a successful `off(e, L)` removes every occurrence of `L` from
both the general and the first-only lists of `e`, so a subsequent
emission of `e` does not invoke `L` at all (given `L` is not separately
registered as an any-listener). -/
theorem off_listener_removes_all_occurrences (s : EventEmitter) (e : EventName) (L : Nat) (args : List Nat)
    (hA : L ∉ s.anyRegistrations)
    (_hok : (s.off (some e) (some L)).2 = none) :
    (getReg (s.off (some e) (some L)).1 e).listeners =
      (getReg s e).listeners.filter (fun a => a != L)
    ∧ (getReg (s.off (some e) (some L)).1 e).firstOnlyListeners =
      (getReg s e).firstOnlyListeners.filter (fun a => a != L)
    ∧ ∀ c ∈ ((s.off (some e) (some L)).1.emit e args).2, c.lid ≠ L := by
  refine ⟨by rw [off_listener_getReg_self], by rw [off_listener_getReg_self], ?_⟩
  intro c hc
  rw [emit_trace, off_listener_getReg_self, off_listener_anyRegistrations] at hc
  simp only [List.mem_append] at hc
  rcases hc with (hc | hc) | hc
  · cases hfa : (getReg s e).firstArgs with
    | none =>
      simp only [hfa] at hc
      have hl := lid_mem_map_calls hc
      have := (List.mem_filter.mp hl).2
      simpa using this
    | some fa =>
      simp only [hfa] at hc
      simp at hc
  · have hl := lid_mem_map_calls hc
    have := (List.mem_filter.mp hl).2
    simpa using this
  · have hl := lid_mem_map_calls hc
    exact fun heq => hA (heq ▸ hl)

/-- C8 witness: removing a listener registered twice via `on` and twice
via `onFirst` strips all four occurrences, leaving the general listener
list empty. -/
theorem off_listener_removes_all_occurrences_witness :
    (getReg (((((EventEmitter.new.on "a" 3).on "a" 3).onFirst "a" 3).1.onFirst "a" 3).1.off
        (some "a") (some 3)).1 "a").listeners = [] := by
  rw [(off_listener_removes_all_occurrences
    (((((EventEmitter.new.on "a" 3).on "a" 3).onFirst "a" 3).1.onFirst "a" 3).1)
    "a" 3 [1] (by decide) (by rfl)).1]
  decide

/-- C9: `off()` with no arguments empties the registration map while
leaving the any-listeners untouched: a subsequent emission invokes
exactly the any-listeners (no previously registered per-event or
first-only listener fires), and any-listeners are removed via
`offAny`. -/
theorem off_all_clears_registrations_keeps_any (s : EventEmitter) (e : EventName) (args : List Nat) (L : Nat) :
    (s.off none none).1.registrations = []
    ∧ (s.off none none).1.anyRegistrations = s.anyRegistrations
    ∧ ((s.off none none).1.emit e args).2 =
        s.anyRegistrations.map (fun lid => Call.mk lid (some e) args)
    ∧ ((s.off none none).1.offAny L).anyRegistrations =
        s.anyRegistrations.filter fun a => a != L := by
  have hget : getReg (s.off none none).1 e = createNewRegistration := by
    simp [getReg, off_all_eq, lookupReg]
  refine ⟨rfl, rfl, ?_, ?_⟩
  · rw [emit_trace, hget]
    rfl
  · simp [EventEmitter.offAny, off_all_eq, removeFromArray_fst]

/-- C10: a throwing `off(e, L)` leaves the state unchanged except for
the lazy creation of a blank registration when `e` was previously
unseen: nothing is removed from any list and no captured first args are
altered. -/
theorem off_listener_throw_preserves_state (s : EventEmitter) (e : EventName) (L : Nat)
    (h : (s.off (some e) (some L)).2 ≠ none) :
    (s.off (some e) (some L)).1 = (s.safelyGetRegistration e).2
    ∧ (∀ r, lookupReg s.registrations e = some r → (s.off (some e) (some L)).1 = s)
    ∧ (lookupReg s.registrations e = none →
        (s.off (some e) (some L)).1 =
          { anyRegistrations := s.anyRegistrations
            registrations := s.registrations ++ [(e, createNewRegistration)] }) := by
  have hnf := (off_listener_error_iff s e L).mp h
  have hl1 : (removeFromArray (getReg s e).listeners L).1 = (getReg s e).listeners := by
    rw [removeFromArray_fst]
    refine List.filter_eq_self.mpr fun a ha => ?_
    simp only [bne_iff_ne, ne_eq]
    exact fun heq => hnf.1 (heq ▸ ha)
  have hf1 : (removeFromArray (getReg s e).firstOnlyListeners L).1 = (getReg s e).firstOnlyListeners := by
    rw [removeFromArray_fst]
    refine List.filter_eq_self.mpr fun a ha => ?_
    simp only [bne_iff_ne, ne_eq]
    exact fun heq => hnf.2 (heq ▸ ha)
  have hmain : (s.off (some e) (some L)).1 = (s.safelyGetRegistration e).2 := by
    rw [off_listener_fst, hl1, hf1]
    exact setRegS_of_lookup_eq (lookupReg_safelyGetRegistration_self s e)
  refine ⟨hmain, ?_, ?_⟩
  · intro r hr
    rw [hmain]
    exact safelyGetRegistration_state_of_some hr
  · intro hr
    rw [hmain]
    exact safelyGetRegistration_state_of_none hr

/-- C10 witness: removing a never-registered listener for an unseen
event name throws and merely creates the blank registration. -/
theorem off_listener_throw_preserves_state_witness :
    (EventEmitter.new.off (some "a") (some 5)).1 =
      { anyRegistrations := []
        registrations := [("a", createNewRegistration)] } :=
  (off_listener_throw_preserves_state EventEmitter.new "a" 5 (by decide)).2.2 (by rfl)

/-- C4: the futures returned by `waitFor` and `waitForFirst` are never
rejected, and when the event has already been emitted before the call,
`waitForFirst` resolves at creation time with the captured first value
(the first positional argument of the captured emission) instead of
rejecting or staying pending. -/
theorem wait_futures_never_reject (s : EventEmitter) (e : EventName) (lid : Nat) (fa : List Nat)
    (h : (getReg s e).firstArgs = some fa) :
    (s.waitForFirst e lid).1 = PromiseOutcome.resolved fa.head?
    ∧ ∀ (s2 : EventEmitter) (e2 : EventName) (lid2 : Nat),
        (s2.waitFor e2 lid2).1 ≠ PromiseOutcome.rejected
        ∧ (s2.waitForFirst e2 lid2).1 ≠ PromiseOutcome.rejected := by
  constructor
  · have hfst := safelyGetRegistration_fst s e
    cases hq : ((s.safelyGetRegistration e).2.off (some e) (some lid)).2 <;>
      simp [EventEmitter.waitForFirst, hfst, h, hq]
  · intro s2 e2 lid2
    have hfst2 := safelyGetRegistration_fst s2 e2
    constructor
    · simp [EventEmitter.waitFor]
    · cases hfa : (getReg s2 e2).firstArgs with
      | none => simp [EventEmitter.waitForFirst, hfst2, hfa]
      | some fa2 =>
        cases hq : ((s2.safelyGetRegistration e2).2.off (some e2) (some lid2)).2 <;>
          simp [EventEmitter.waitForFirst, hfst2, hfa, hq]

/-- C4 witness: after `emit("a", [5, 6])`, a `waitForFirst("a")` future
is already resolved, with the first captured value `5`. -/
theorem wait_futures_never_reject_witness :
    ((EventEmitter.new.emit "a" [5, 6]).1.waitForFirst "a" 9).1 = PromiseOutcome.resolved (some 5) :=
  (wait_futures_never_reject (EventEmitter.new.emit "a" [5, 6]).1 "a" 9 [5, 6] (by rfl)).1

/-- C5 (evaluation at the failing input): the dispatch loops of `emit`
iterate the live arrays by plain increasing index, so a listener that
removes itself mid-dispatch (as the temporary listeners installed by
`waitFor` do) makes the emission skip the unaffected listener that
immediately follows it. With two pending `waitFor` futures on `"a"`
(listener list `[0, 1]`), emitting `"a"` invokes only listener `0`:
listener `1` is skipped, so its future does not resolve on this
emission, contrary to the claim and to the documented `waitFor`
contract. -/
theorem emit_live_iteration_skips_after_self_removal :
    (getReg ((EventEmitter.new.waitFor "a" 0).2.waitFor "a" 1).2 "a").listeners = [0, 1]
    ∧ (((EventEmitter.new.waitFor "a" 0).2.waitFor "a" 1).2.emitE
        (fun _ => Action.resolveOff "a") "a" [5] 4).2.1 = [Call.mk 0 none [5]] := by
  constructor <;> rfl

/-! Preservation of `NeverFires` by every operation that does not
register the listener anew, leading to the claim that a first-only
listener of an already-fired event never fires again. -/

theorem neverFires_getReg {s : EventEmitter} {L : Nat} (h : NeverFires s L) (e : EventName) :
    L ∉ (getReg s e).listeners ∧
      (L ∈ (getReg s e).firstOnlyListeners → (getReg s e).firstArgs ≠ none) := by
  unfold getReg
  cases hl : lookupReg s.registrations e with
  | none => simp [createNewRegistration]
  | some r => exact h.2 (e, r) (mem_of_lookupReg hl)

theorem mem_setRegS_sgr {s : EventEmitter} {e : EventName} {r2 : Registration}
    {p : EventName × Registration}
    (hp : p ∈ (setRegS (s.safelyGetRegistration e).2 e r2).registrations) :
    p = (e, r2) ∨ p = (e, getReg s e) ∨ p ∈ s.registrations := by
  rcases mem_setReg hp with h | h
  · exact Or.inl h
  · rcases mem_safelyGetRegistration h with h2 | h2
    · exact Or.inr (Or.inl h2)
    · exact Or.inr (Or.inr h2)

theorem mem_on_registrations {s : EventEmitter} {e : EventName} {lid : Nat}
    {p : EventName × Registration} (hp : p ∈ (s.on e lid).registrations) :
    p = (e, { getReg s e with listeners := (getReg s e).listeners ++ [lid] })
      ∨ p = (e, getReg s e) ∨ p ∈ s.registrations := by
  simp only [EventEmitter.on, safelyGetRegistration_fst] at hp
  exact mem_setRegS_sgr hp

theorem mem_onFirst_registrations {s : EventEmitter} {e : EventName} {lid : Nat}
    {p : EventName × Registration} (hp : p ∈ (s.onFirst e lid).1.registrations) :
    p = (e, { getReg s e with firstOnlyListeners := (getReg s e).firstOnlyListeners ++ [lid] })
      ∨ p = (e, getReg s e) ∨ p ∈ s.registrations := by
  simp only [EventEmitter.onFirst, safelyGetRegistration_fst] at hp
  exact mem_setRegS_sgr hp

theorem mem_emit_registrations {s : EventEmitter} {e : EventName} {args : List Nat}
    {p : EventName × Registration} (hp : p ∈ (s.emit e args).1.registrations) :
    p = (e, { firstArgs := some args, firstOnlyListeners := [], listeners := (getReg s e).listeners })
      ∨ p = (e, getReg s e) ∨ p ∈ s.registrations := by
  have hfst := safelyGetRegistration_fst s e
  cases hfa : (getReg s e).firstArgs with
  | none =>
    simp only [EventEmitter.emit, hfst, hfa] at hp
    exact mem_setRegS_sgr hp
  | some fa =>
    simp only [EventEmitter.emit, hfst, hfa] at hp
    rcases mem_safelyGetRegistration hp with h2 | h2
    · exact Or.inr (Or.inl h2)
    · exact Or.inr (Or.inr h2)

theorem mem_off_listener_registrations {s : EventEmitter} {e : EventName} {lid : Nat}
    {p : EventName × Registration} (hp : p ∈ (s.off (some e) (some lid)).1.registrations) :
    p = (e,
        { firstArgs := (getReg s e).firstArgs
          firstOnlyListeners := (removeFromArray (getReg s e).firstOnlyListeners lid).1
          listeners := (removeFromArray (getReg s e).listeners lid).1 })
      ∨ p = (e, getReg s e) ∨ p ∈ s.registrations := by
  rw [off_listener_fst] at hp
  exact mem_setRegS_sgr hp

theorem neverFires_on {s : EventEmitter} {L : Nat} (h : NeverFires s L) (e : EventName) {lid : Nat}
    (hne : lid ≠ L) : NeverFires (s.on e lid) L := by
  have hg := neverFires_getReg h
  constructor
  · rw [on_anyRegistrations]
    exact h.1
  · intro p hp
    rcases mem_on_registrations hp with h1 | h1 | h1
    · subst h1
      refine ⟨?_, ?_⟩
      · simp only [List.mem_append, List.mem_singleton]
        rintro (hl | hl)
        · exact (hg e).1 hl
        · exact hne hl.symm
      · exact (hg e).2
    · subst h1
      exact ⟨(hg e).1, (hg e).2⟩
    · exact h.2 p h1

theorem neverFires_onFirst {s : EventEmitter} {L : Nat} (h : NeverFires s L) (e : EventName) {lid : Nat}
    (hne : lid ≠ L) : NeverFires (s.onFirst e lid).1 L := by
  have hg := neverFires_getReg h
  constructor
  · rw [onFirst_anyRegistrations]
    exact h.1
  · intro p hp
    rcases mem_onFirst_registrations hp with h1 | h1 | h1
    · subst h1
      refine ⟨(hg e).1, ?_⟩
      simp only [List.mem_append, List.mem_singleton]
      rintro (hl | hl)
      · exact (hg e).2 hl
      · exact (hne hl.symm).elim
    · subst h1
      exact ⟨(hg e).1, (hg e).2⟩
    · exact h.2 p h1

theorem neverFires_onAny {s : EventEmitter} {L : Nat} (h : NeverFires s L) {lid : Nat}
    (hne : lid ≠ L) : NeverFires (s.onAny lid) L := by
  constructor
  · simp only [EventEmitter.onAny, List.mem_append, List.mem_singleton]
    rintro (hl | hl)
    · exact h.1 hl
    · exact hne hl.symm
  · exact h.2

theorem neverFires_off_all {s : EventEmitter} {L : Nat} (h : NeverFires s L) :
    NeverFires (s.off none none).1 L := by
  refine ⟨h.1, ?_⟩
  intro p hp
  simp [off_all_eq] at hp

theorem neverFires_off_event {s : EventEmitter} {L : Nat} (h : NeverFires s L) (e : EventName) :
    NeverFires (s.off (some e) none).1 L := by
  refine ⟨h.1, ?_⟩
  intro p hp
  rw [off_event_eq] at hp
  rcases mem_setReg hp with h1 | h1
  · subst h1
    simp [createNewRegistration]
  · exact h.2 p h1

theorem neverFires_off_listener {s : EventEmitter} {L : Nat} (h : NeverFires s L)
    (e : EventName) (lid : Nat) : NeverFires (s.off (some e) (some lid)).1 L := by
  have hg := neverFires_getReg h
  constructor
  · rw [off_listener_anyRegistrations]
    exact h.1
  · intro p hp
    rcases mem_off_listener_registrations hp with h1 | h1 | h1
    · subst h1
      refine ⟨?_, ?_⟩
      · intro hl
        exact (hg e).1 (mem_removeFromArray.mp hl).1
      · intro hl
        exact (hg e).2 (mem_removeFromArray.mp hl).1
    · subst h1
      exact ⟨(hg e).1, (hg e).2⟩
    · exact h.2 p h1

theorem neverFires_offAny {s : EventEmitter} {L : Nat} (h : NeverFires s L) (lid : Nat) :
    NeverFires (s.offAny lid) L := by
  constructor
  · intro hl
    exact h.1 (mem_removeFromArray.mp hl).1
  · intro p hp
    simp only [EventEmitter.offAny, List.mem_map] at hp
    rcases hp with ⟨q, hq, rfl⟩
    refine ⟨?_, ?_⟩
    · intro hl
      exact (h.2 q hq).1 (mem_removeFromArray.mp hl).1
    · intro hl
      exact (h.2 q hq).2 (mem_removeFromArray.mp hl).1

theorem neverFires_emit_state {s : EventEmitter} {L : Nat} (h : NeverFires s L)
    (e : EventName) (args : List Nat) : NeverFires (s.emit e args).1 L := by
  have hg := neverFires_getReg h
  constructor
  · rw [emit_anyRegistrations]
    exact h.1
  · intro p hp
    rcases mem_emit_registrations hp with h1 | h1 | h1
    · subst h1
      refine ⟨(hg e).1, ?_⟩
      intro hl
      simp at hl
    · subst h1
      exact ⟨(hg e).1, (hg e).2⟩
    · exact h.2 p h1

theorem neverFires_emit_trace {s : EventEmitter} {L : Nat} (h : NeverFires s L)
    (e : EventName) (args : List Nat) : ∀ c ∈ (s.emit e args).2, c.lid ≠ L := by
  have hg := neverFires_getReg h
  intro c hc
  rw [emit_trace] at hc
  simp only [List.mem_append] at hc
  rcases hc with (hc | hc) | hc
  · cases hfa : (getReg s e).firstArgs with
    | none =>
      simp only [hfa] at hc
      have hl := lid_mem_map_calls hc
      intro heq
      exact ((hg e).2 (heq ▸ hl)) hfa
    | some fa =>
      simp only [hfa] at hc
      simp at hc
  · have hl := lid_mem_map_calls hc
    intro heq
    exact (hg e).1 (heq ▸ hl)
  · have hl := lid_mem_map_calls hc
    intro heq
    exact h.1 (heq ▸ hl)

theorem neverFires_step {s : EventEmitter} {L : Nat} (h : NeverFires s L) {op : Op}
    (hop : registersListener L op = false) :
    NeverFires (step s op).1 L ∧ ∀ c ∈ (step s op).2, c.lid ≠ L := by
  cases op with
  | onOp e lid =>
    have hne : lid ≠ L := by simpa [registersListener] using hop
    exact ⟨neverFires_on h e hne, by simp [step]⟩
  | onFirstOp e lid =>
    have hne : lid ≠ L := by simpa [registersListener] using hop
    refine ⟨neverFires_onFirst h e hne, ?_⟩
    intro c hc
    simp only [step] at hc
    rw [onFirst_trace] at hc
    cases hfa : (getReg s e).firstArgs with
    | none => simp [hfa] at hc
    | some fa =>
      simp only [hfa] at hc
      simp only [List.mem_singleton] at hc
      subst hc
      exact hne
  | onAnyOp lid =>
    have hne : lid ≠ L := by simpa [registersListener] using hop
    exact ⟨neverFires_onAny h hne, by simp [step]⟩
  | offOp oe olid =>
    refine ⟨?_, by simp [step]⟩
    cases oe with
    | none => exact neverFires_off_all h
    | some e =>
      cases olid with
      | none => exact neverFires_off_event h e
      | some lid => exact neverFires_off_listener h e lid
  | offAnyOp lid => exact ⟨neverFires_offAny h lid, by simp [step]⟩
  | emitOp e args => exact ⟨neverFires_emit_state h e args, neverFires_emit_trace h e args⟩

theorem neverFires_run {s : EventEmitter} {L : Nat} (h : NeverFires s L) {ops : List Op}
    (hops : ∀ op ∈ ops, registersListener L op = false) :
    ∀ c ∈ (run s ops).2, c.lid ≠ L := by
  induction ops generalizing s with
  | nil => simp [run]
  | cons op rest ih =>
    intro c hc
    simp only [run, List.mem_append] at hc
    have hstep := neverFires_step h (hops op (List.mem_cons_self _ _))
    rcases hc with hc | hc
    · exact hstep.2 c hc
    · exact ih hstep.1 (fun o ho => hops o (List.mem_cons_of_mem _ ho)) c hc

/-- C2: an emission that runs while `firstArgs` for `e` is unset first
invokes every listener currently in `firstOnlyListeners`, in insertion
order, with `args`; afterwards `firstArgs` is `args` and
`firstOnlyListeners` is empty, so the next emission of `e` invokes no
first-only listener; and more generally a listener drained by this
emission and registered nowhere else is never invoked by any later
sequence of operations — later emissions of `e` included — that does
not register it anew (re-registering it after an explicit reset is the
claim's carve-out). -/
theorem emit_first_drains_and_captures (s : EventEmitter) (e : EventName) (args : List Nat)
    (h : (getReg s e).firstArgs = none) :
    (s.emit e args).2 =
      (getReg s e).firstOnlyListeners.map (fun lid => Call.mk lid none args)
      ++ (getReg s e).listeners.map (fun lid => Call.mk lid none args)
      ++ s.anyRegistrations.map (fun lid => Call.mk lid (some e) args)
    ∧ getReg (s.emit e args).1 e =
      { firstArgs := some args, firstOnlyListeners := [], listeners := (getReg s e).listeners }
    ∧ (∀ args2, ((s.emit e args).1.emit e args2).2 =
        (getReg s e).listeners.map (fun lid => Call.mk lid none args2)
        ++ s.anyRegistrations.map fun lid => Call.mk lid (some e) args2)
    ∧ ∀ (L : Nat) (ops : List Op),
        L ∈ (getReg s e).firstOnlyListeners →
        (s.registrations.map Prod.fst).Nodup →
        L ∉ s.anyRegistrations →
        (∀ p ∈ s.registrations, L ∉ p.2.listeners ∧ (L ∈ p.2.firstOnlyListeners → p.1 = e)) →
        (∀ op ∈ ops, registersListener L op = false) →
        ∀ c ∈ (run (s.emit e args).1 ops).2, c.lid ≠ L := by
  have h2 : getReg (s.emit e args).1 e =
      { firstArgs := some args, firstOnlyListeners := [], listeners := (getReg s e).listeners } := by
    rw [emit_getReg_self, h]
  refine ⟨?_, h2, ?_, ?_⟩
  · rw [emit_trace, h]
  · intro args2
    rw [emit_trace, h2, emit_anyRegistrations]
    simp
  · intro L ops hL hnd hany hfresh hops
    have hr : ∃ r, lookupReg s.registrations e = some r := by
      cases hlk : lookupReg s.registrations e with
      | none =>
        exfalso
        simp [getReg, hlk, createNewRegistration] at hL
      | some r => exact ⟨r, rfl⟩
    obtain ⟨r, hr⟩ := hr
    have hgr : getReg s e = r := by simp [getReg, hr]
    have hpost : NeverFires (s.emit e args).1 L := by
      constructor
      · rw [emit_anyRegistrations]
        exact hany
      · intro p hp
        have hfst := safelyGetRegistration_fst s e
        have hstate : (s.safelyGetRegistration e).2 = s := safelyGetRegistration_state_of_some hr
        simp only [EventEmitter.emit, hfst, h, hstate, setRegS] at hp
        rcases mem_setReg_nodup hnd hp with h1 | ⟨h1, hne⟩
        · subst h1
          refine ⟨?_, ?_⟩
          · have hm := (hfresh (e, r) (mem_of_lookupReg hr)).1
            rw [hgr]
            exact hm
          · intro hmem
            simp at hmem
        · exact ⟨(hfresh p h1).1, fun hmem => ((hne ((hfresh p h1).2 hmem)).elim)⟩
    exact neverFires_run hpost hops

/-- C2 witness: a first emission on a fresh registration with one
first-only listener drains it with the emitted args, and a later
sequence of operations — another emission of `"a"`, a reset of `"a"`,
a new general listener, and an emission after the reset — never
invokes that drained listener again. -/
theorem emit_first_drains_and_captures_witness :
    (((EventEmitter.new.onFirst "a" 7).1.emit "a" [3]).2 = [Call.mk 7 none [3]])
    ∧ ((run ((EventEmitter.new.onFirst "a" 7).1.emit "a" [3]).1
        [Op.emitOp "a" [8], Op.offOp (some "a") none, Op.onOp "a" 4,
          Op.emitOp "a" [9]]).2.all fun c => c.lid != 7) = true := by
  have h := emit_first_drains_and_captures (EventEmitter.new.onFirst "a" 7).1 "a" [3] (by rfl)
  constructor
  · rw [h.1]
    rfl
  · refine List.all_eq_true.mpr fun c hc => ?_
    have hne := h.2.2.2 7
      [Op.emitOp "a" [8], Op.offOp (some "a") none, Op.onOp "a" 4, Op.emitOp "a" [9]]
      (by decide) (by decide) (by decide) (by decide) (by decide) c hc
    simpa using hne

/-- C3: calling `onFirst(e, L)` when `firstArgs` for `e` is already
captured invokes `L` synchronously with the captured args, appends `L`
to `firstOnlyListeners` (so a following `off(e, L)` succeeds), and `L`
is never invoked by any later sequence of operations — emissions of `e`
included — that does not register `L` anew (here `L` is assumed not to
be registered anywhere beforehand). -/
theorem onFirst_after_capture_fires_once (s : EventEmitter) (e : EventName) (L : Nat)
    (fa : List Nat) (ops : List Op)
    (hfa : (getReg s e).firstArgs = some fa)
    (hfresh : NeverFires s L)
    (hops : ∀ op ∈ ops, registersListener L op = false) :
    (s.onFirst e L).2 = [Call.mk L none fa]
    ∧ (getReg (s.onFirst e L).1 e).firstOnlyListeners =
        (getReg s e).firstOnlyListeners ++ [L]
    ∧ ((s.onFirst e L).1.off (some e) (some L)).2 = none
    ∧ ∀ c ∈ (run (s.onFirst e L).1 ops).2, c.lid ≠ L := by
  have hg := neverFires_getReg hfresh
  have hstate : NeverFires (s.onFirst e L).1 L := by
    constructor
    · rw [onFirst_anyRegistrations]
      exact hfresh.1
    · intro p hp
      rcases mem_onFirst_registrations hp with h1 | h1 | h1
      · subst h1
        refine ⟨(hg e).1, ?_⟩
        intro _
        simp [hfa]
      · subst h1
        exact ⟨(hg e).1, (hg e).2⟩
      · exact hfresh.2 p h1
  refine ⟨?_, ?_, ?_, ?_⟩
  · rw [onFirst_trace, hfa]
  · rw [onFirst_getReg_self]
  · have hmem : L ∈ (getReg (s.onFirst e L).1 e).firstOnlyListeners := by
      rw [onFirst_getReg_self]
      simp
    have hrm := (removeFromArray_snd (getReg (s.onFirst e L).1 e).firstOnlyListeners L).mpr hmem
    have hfst := safelyGetRegistration_fst (s.onFirst e L).1 e
    simp [EventEmitter.off, hfst, hrm]
  · exact neverFires_run hstate hops

/-- C3 witness: after `emit("a", [4])`, attaching the fresh listener
`2` via `onFirst` invokes it immediately, once, with the captured args
`[4]` (the theorem also yields that a sequence of later operations,
further emissions of `"a"` included, never invokes it again). -/
theorem onFirst_after_capture_fires_once_witness :
    ((EventEmitter.new.emit "a" [4]).1.onFirst "a" 2).2 = [Call.mk 2 none [4]] :=
  (onFirst_after_capture_fires_once (EventEmitter.new.emit "a" [4]).1 "a" 2 [4]
    [Op.emitOp "a" [9], Op.offOp (some "a") none, Op.emitOp "a" [10],
      Op.onOp "a" 3, Op.emitOp "a" [11]]
    (by rfl) (by decide) (by decide)).1

end Squee
